import Mathlib

/-!
The upload handler of upd (`server/send_handler.go`).

A shallow embedding of `SendHandler.ServeHTTP`, `SendHandler.randomString` and
`SendHandler.addMetadata`, followed by the properties of the metadata store, of
the code allocation and of the admission pipeline that the handler implements.

Modelling conventions.

* Go `string` values are Lean `String`s (all strings the handler builds itself
  are ASCII, so byte length and character length agree).
* A Go `map[string]Metadata` is a function `String → Option Metadata`; a lookup
  of a missing key yields the zero `Metadata`, as in Go.
* The global `math/rand` source is a stream `Nat → Nat` of raw draws;
  `rand.Int31n n` consumes one draw and reduces it into `[0, n)`.
* The unbounded `for` loop of `ServeHTTP` takes a fuel argument and yields
  `none` when the fuel runs out.
* Calls into collaborators that live outside the handler (`WriteFile`,
  `writeMetadata`) are appended to a call log kept in the state.
-/

set_option autoImplicit false

namespace Upd

/-! ## Data model -/

/-- Instants (`time.Time`), as nanoseconds; the zero value is `0`. -/
abbrev Time := Int

/-- Payload bytes (`[]byte`). -/
abbrev Bytes := List Nat

/-- The random source of `math/rand`: the stream of raw draws still to come. -/
abbrev Rand := Nat → Nat

/-- The entry kept for one upload (the fields set by `addMetadata`). -/
structure Metadata where
  Filename : String
  Original : String
  Tags : List String
  TTL : String
  DeleteKey : String
  CreationTime : Time
  deriving DecidableEq

/-- The zero value of `Metadata`, which a Go map lookup yields for a missing key. -/
def Metadata.zero : Metadata :=
  { Filename := "", Original := "", Tags := [], TTL := "", DeleteKey := "", CreationTime := 0 }

/-- The metadata of the server (`s.Server.Metadata`): the map from code to entry
and the list of the last uploaded codes. -/
structure Metadatas where
  Data : String → Option Metadata
  LastUploaded : List String

/-- Go map indexing `m[k]`: the stored value, or the zero value. -/
def Metadatas.index (data : String → Option Metadata) (k : String) : Metadata :=
  (data k).getD Metadata.zero

/-- The configuration fields the handler reads. -/
structure Config where
  SecretKey : String
  deriving DecidableEq

/-- One call into a collaborator of the handler. -/
inductive Call where
  /-- The call `s.Server.WriteFile(name, data)` and whether the write succeeded. -/
  | WriteFile (name : String) (data : Bytes) (ok : Bool)
  /-- The call `s.Server.writeMetadata(true)`. -/
  | writeMetadata
  deriving DecidableEq

/-- The state the handler runs against. -/
structure Server where
  Config : Config
  Metadata : Metadatas
  rand : Rand
  calls : List Call

/-- The JSON body returned on success. -/
structure SendResponse where
  Name : String
  DeleteKey : String
  DeletionTime : Time
  deriving DecidableEq

/-- What the handler wrote to the `http.ResponseWriter`: the status code and, on
success, the body. -/
structure Response where
  Status : Nat
  Body : Option SendResponse
  deriving DecidableEq

/-- The parts of the `http.Request` that the handler reads.

* `Key` is `r.Header.Get(SECRET_KEY_HEADER)` (the empty string when absent);
* `FormFile` is the outcome of `r.FormFile("data")` followed by
  `ioutil.ReadAll`: `none` when `FormFile` fails, `some none` when `ReadAll`
  fails, `some (some data)` otherwise;
* `Form` is `r.Form` once the form has been parsed. -/
structure Request where
  Key : String
  FormFile : Option (Option Bytes)
  Form : String → List String

/-- The library and collaborator functions the handler calls but does not define. -/
structure Env where
  /-- Whether `time.ParseDuration` accepts the text. -/
  ParseDuration : String → Bool
  /-- The function `filepath.Base`. -/
  Base : String → String
  /-- The method `Server.computeEndOfLife`. -/
  computeEndOfLife : String → Time → Time
  /-- Whether `Server.WriteFile` succeeds on the given name and data. -/
  WriteFile : String → Bytes → Bool
  /-- The result of `time.Now()`. -/
  Now : Time

/-! ## The source, embedded -/

/-- The constant `DICTIONARY`. -/
def DICTIONARY : String := "abcdefghijklmnopqrstuvwxyzABCDEFGHIJKLMNOPQRSTUVWXYZ0123456789"

/-- The function `rand.Int31n`: one draw, reduced into `[0, n)`. -/
def Int31n (n : Nat) (rand : Rand) : Nat × Rand :=
  (rand 0 % n, fun i => rand (i + 1))

/-- The loop of `randomString`: `todo` iterations remain, `result` is the string
built so far. Each iteration appends `string(DICTIONARY[rand.Int31n(len(DICTIONARY))])`.
An index outside the dictionary (a panic in Go) would append the NUL character. -/
def randomString.loop : Nat → String → Rand → String × Rand
  | 0, result, rand => (result, rand)
  | todo + 1, result, rand =>
    let (k, rand1) := Int31n DICTIONARY.length rand
    randomString.loop todo (result ++ String.singleton (DICTIONARY.data.getD k (Char.ofNat 0))) rand1

/-- The method `randomString`: a random string of the given size. -/
def randomString (size : Nat) (rand : Rand) : String × Rand :=
  randomString.loop size "" rand

/-- The method `addMetadata`. -/
def addMetadata (m : Metadatas) (name original : String) (tags : List String)
    (ttl key : String) (now : Time) : Metadatas :=
  let metadata : Metadata :=
    { Filename := name, Original := original, Tags := tags, TTL := ttl,
      DeleteKey := key, CreationTime := now }
  let data := fun k => if k = name then some metadata else m.Data k
  let lastUploaded := [name] ++ m.LastUploaded
  let limitMax := if lastUploaded.length < 19 then lastUploaded.length else 19
  { Data := data, LastUploaded := lastUploaded.take limitMax }

/-- The cutting done by `strings.Split(s, sep)` for a one-character separator,
on character lists: the pieces between the separators, in order. -/
def splitChars (sep : Char) : List Char → List (List Char)
  | [] => [[]]
  | c :: cs =>
    if c = sep then [] :: splitChars sep cs
    else
      match splitChars sep cs with
      | [] => [[c]]
      | piece :: pieces => (c :: piece) :: pieces

/-- The function `strings.Split`, for a one-character separator. -/
def Split (s : String) (sep : Char) : List String :=
  (splitChars sep s.data).map String.mk

/-- The function `strings.Join`. -/
def Join : List String → String → String
  | [], _ => ""
  | [a], _ => a
  | a :: b :: rest, sep => a ++ sep ++ Join (b :: rest) sep

/-- The secret check at the head of `ServeHTTP`: whether the request is refused. -/
def secretDenied (secretKey key : String) : Bool :=
  secretKey != "" && key != secretKey

/-- The allocation loop of `ServeHTTP`: draw a name until the entry found under
it has an empty `Filename`. -/
def allocLoop : Nat → (String → Option Metadata) → Rand → Option (String × Rand)
  | 0, _, _ => none
  | fuel + 1, data, rand =>
    let (name, rand1) := randomString 8 rand
    if (Metadatas.index data name).Filename == "" then some (name, rand1)
    else allocLoop fuel data rand1

/-- The method `ServeHTTP`. The result is `none` when the allocation loop does
not finish within the fuel. -/
def ServeHTTP (fuel : Nat) (env : Env) (s : Server) (r : Request) :
    Option (Response × Server) :=
  let key := r.Key
  if secretDenied s.Config.SecretKey key then
    some ({ Status := 403, Body := none }, s)
  else
    match r.FormFile with
    | none => some ({ Status := 500, Body := none }, s)
    | some none => some ({ Status := 500, Body := none }, s)
    | some (some data) =>
      match r.Form "name" with
      | [] => some ({ Status := 400, Body := none }, s)
      | name0 :: _ =>
        let original := env.Base name0
        match allocLoop fuel s.Metadata.Data s.rand with
        | none => none
        | some (name, rand1) =>
          let s1 : Server := { s with rand := rand1 }
          let now := env.Now
          let ttlStep : Option (String × Time) :=
            match r.Form "ttl" with
            | [] => some ("", 0)
            | ttl :: _ =>
              if env.ParseDuration ttl then some (ttl, env.computeEndOfLife ttl now)
              else none
          match ttlStep with
          | none => some ({ Status := 400, Body := none }, s1)
          | some (ttl, expirationTime) =>
            let tags : List String :=
              match r.Form "tags" with
              | [] => []
              | tags0 :: _ => Split tags0 ','
            let s2 : Server :=
              { s1 with calls := s1.calls ++ [Call.WriteFile name data (env.WriteFile name data)] }
            let (deleteKey, rand2) := randomString 16 s2.rand
            let s3 : Server :=
              { s2 with
                rand := rand2
                Metadata := addMetadata s2.Metadata name original tags ttl deleteKey now }
            let s4 : Server := { s3 with calls := s3.calls ++ [Call.writeMetadata] }
            some ({ Status := 200,
                    Body := some { Name := name, DeleteKey := deleteKey,
                                   DeletionTime := expirationTime } }, s4)

/-! ## Scenarios -/

/-- A run of uploads recorded one after the other: `addMetadata` is called once
for each entry of the list, in order, with the fields of the entry as arguments. -/
def addAll (m : Metadatas) : List Metadata → Metadatas
  | [] => m
  | e :: es =>
    addAll (addMetadata m e.Filename e.Original e.Tags e.TTL e.DeleteKey e.CreationTime) es

/-- The arguments of an upload recorded under the code `code`. -/
def upload (code : String) : Metadata :=
  { Filename := code, Original := "f.txt", Tags := [], TTL := "", DeleteKey := "k", CreationTime := 0 }

/-- The store with no entry and no recent upload. -/
def emptyStore : Metadatas :=
  { Data := fun _ => none, LastUploaded := [] }

/-- A store in which the code `abcdefgh` is taken. -/
def takenStore : Metadatas :=
  { Data := fun k => if k = "abcdefgh" then some (upload "abcdefgh") else none,
    LastUploaded := ["abcdefgh"] }

/-- A store in which the code `aaaaaaaa` is taken by a regular entry. -/
def busyStore : String → Option Metadata :=
  fun k => if k = "aaaaaaaa" then some (upload "aaaaaaaa") else none

/-- Draws giving the candidate `aaaaaaaa` first and `bbbbbbbb` next. -/
def drawsAB : Rand := fun i => if i < 8 then 0 else 1

/-- Collaborators for the scenarios: `time.ParseDuration` accepts `1h` only, an
upload lives one hour (`3600` units), and every `WriteFile` fails. -/
def failingEnv : Env :=
  { ParseDuration := fun ttl => ttl == "1h",
    Base := fun path => path,
    computeEndOfLife := fun _ now => now + 3600,
    WriteFile := fun _ _ => false,
    Now := 1000 }

/-- A server whose secret is `S`, whose store is `takenStore`, and whose random
source draws `0` for ever. -/
def server0 : Server :=
  { Config := { SecretKey := "S" }, Metadata := takenStore, rand := fun _ => 0, calls := [] }

/-- A request with the given key and form, carrying the payload `[1, 2, 3]`. -/
def request (key : String) (form : String → List String) : Request :=
  { Key := key, FormFile := some (some [1, 2, 3]), Form := form }

/-- A complete form: a name, a `ttl` of one hour and the tags `a,b,,c`. -/
def fullForm : String → List String :=
  fun field =>
    if field = "name" then ["a.txt"]
    else if field = "ttl" then ["1h"]
    else if field = "tags" then ["a,b,,c"]
    else []

/-- A form whose `ttl` is not a duration. -/
def badTtlForm : String → List String :=
  fun field =>
    if field = "name" then ["a.txt"]
    else if field = "ttl" then ["notaduration"]
    else []

/-- The state reached from `server0` by the upload of `request "S" fullForm`. -/
def server1 : Server :=
  { Config := { SecretKey := "S" },
    Metadata := addMetadata takenStore "aaaaaaaa" "a.txt" ["a", "b", "", "c"] "1h"
      "aaaaaaaaaaaaaaaa" 1000,
    rand := fun _ => 0,
    calls := [Call.WriteFile "aaaaaaaa" [1, 2, 3] false, Call.writeMetadata] }

/-- A run of requests served one after the other, each with its own fuel and
collaborators: the state after the last one, or `none` when an allocation loop
does not finish. -/
def serveAll : Server → List (Nat × Env × Request) → Option Server
  | s, [] => some s
  | s, (fuel, env, r) :: steps =>
    match ServeHTTP fuel env s r with
    | none => none
    | some (_, s1) => serveAll s1 steps

/-- A server whose secret is `S` and whose store is empty. -/
def freshServer : Server :=
  { Config := { SecretKey := "S" }, Metadata := emptyStore, rand := fun _ => 0, calls := [] }

/-- The state reached from `freshServer` by the upload of `request "S" fullForm`. -/
def freshServer1 : Server :=
  { Config := { SecretKey := "S" },
    Metadata := addMetadata emptyStore "aaaaaaaa" "a.txt" ["a", "b", "", "c"] "1h"
      "aaaaaaaaaaaaaaaa" 1000,
    rand := fun _ => 0,
    calls := [Call.WriteFile "aaaaaaaa" [1, 2, 3] false, Call.writeMetadata] }

/-- The response to the upload of `request "S" fullForm` on `server0`. -/
def response1 : Response :=
  { Status := 200,
    Body := some { Name := "aaaaaaaa", DeleteKey := "aaaaaaaaaaaaaaaa", DeletionTime := 4600 } }

/-! ## Lemmas on `randomString` -/

theorem DICTIONARY_length : DICTIONARY.length = 62 := by decide

theorem DICTIONARY_getD_mem (k : Nat) :
    DICTIONARY.data.getD (k % DICTIONARY.length) (Char.ofNat 0) ∈ DICTIONARY.data := by
  have hk : k % DICTIONARY.length < DICTIONARY.data.length := by
    have h62 : DICTIONARY.data.length = DICTIONARY.length := rfl
    rw [h62, DICTIONARY_length]
    exact Nat.mod_lt _ (by decide)
  rw [List.getD_eq_getElem _ _ hk]
  exact List.getElem_mem _

theorem randomString_loop_length (todo : Nat) (result : String) (rand : Rand) :
    (randomString.loop todo result rand).1.length = result.length + todo := by
  induction todo generalizing result rand with
  | zero => simp [randomString.loop]
  | succ n ih =>
    simp only [randomString.loop, Int31n]
    rw [ih]
    simp [String.length_append, String.singleton]
    omega

theorem randomString_loop_mem (todo : Nat) (result : String) (rand : Rand) (c : Char)
    (hc : c ∈ (randomString.loop todo result rand).1.data) :
    c ∈ result.data ∨ c ∈ DICTIONARY.data := by
  induction todo generalizing result rand with
  | zero => exact Or.inl (by simpa [randomString.loop] using hc)
  | succ n ih =>
    simp only [randomString.loop, Int31n] at hc
    rcases ih _ _ hc with h | h
    · simp only [String.data_append, List.mem_append, String.singleton] at h
      rcases h with h | h
      · exact Or.inl h
      · right
        have : c = DICTIONARY.data.getD (rand 0 % DICTIONARY.length) (Char.ofNat 0) := by
          simpa using h
        rw [this]
        exact DICTIONARY_getD_mem _
    · exact Or.inr h

theorem randomString_length (size : Nat) (rand : Rand) :
    (randomString size rand).1.length = size := by
  simp [randomString, randomString_loop_length]

theorem randomString_mem (size : Nat) (rand : Rand) (c : Char)
    (hc : c ∈ (randomString size rand).1.data) : c ∈ DICTIONARY.data := by
  rcases randomString_loop_mem size "" rand c hc with h | h
  · simp at h
  · exact h

/-! ## Lemmas on `addMetadata` -/

theorem addMetadata_LastUploaded (m : Metadatas) (name original : String) (tags : List String)
    (ttl key : String) (now : Time) :
    (addMetadata m name original tags ttl key now).LastUploaded
      = (name :: m.LastUploaded).take 19 := by
  simp only [addMetadata, List.singleton_append, List.length_cons]
  split
  · next h =>
    rw [List.take_of_length_le (le_of_eq (by simp)), List.take_of_length_le]
    simp only [List.length_cons]
    omega
  · rfl

theorem addMetadata_Data (m : Metadatas) (name original : String) (tags : List String)
    (ttl key : String) (now : Time) (k : String) :
    (addMetadata m name original tags ttl key now).Data k
      = if k = name then
          some { Filename := name, Original := original, Tags := tags, TTL := ttl,
                 DeleteKey := key, CreationTime := now }
        else m.Data k := rfl

theorem addAll_LastUploaded (m : Metadatas) (es : List Metadata) :
    (addAll m es).LastUploaded
      = if es = [] then m.LastUploaded
        else ((es.map Metadata.Filename).reverse ++ m.LastUploaded).take 19 := by
  induction es generalizing m with
  | nil => simp [addAll]
  | cons e es ih =>
    simp only [addAll, ih, addMetadata_LastUploaded]
    by_cases hes : es = []
    · simp [hes]
    · simp only [hes, if_false, List.map_cons, List.reverse_cons, List.append_assoc,
        List.singleton_append, reduceCtorEq]
      simp only [List.take_append_eq_append_take]
      congr 1
      rw [List.take_take]
      congr 1
      omega

/-! ## Lemmas on the allocation loop -/

theorem allocLoop_sound (fuel : Nat) (data : String → Option Metadata) (rand : Rand)
    (name : String) (rand1 : Rand) (h : allocLoop fuel data rand = some (name, rand1)) :
    (Metadatas.index data name).Filename = "" ∧ name.length = 8 ∧
      ∀ c ∈ name.data, c ∈ DICTIONARY.data := by
  induction fuel generalizing rand with
  | zero => simp [allocLoop] at h
  | succ n ih =>
    simp only [allocLoop] at h
    split at h
    · next hfree =>
      simp only [Option.some.injEq, Prod.mk.injEq] at h
      rw [← h.1]
      exact ⟨by simpa using hfree, randomString_length 8 rand,
        fun c hc => randomString_mem 8 rand c hc⟩
    · exact ih _ h

theorem allocLoop_first_free (fuel : Nat) (data : String → Option Metadata) (rand : Rand)
    (hfree : (Metadatas.index data (randomString 8 rand).1).Filename = "") :
    allocLoop (fuel + 1) data rand = some (randomString 8 rand) := by
  simp [allocLoop, hfree]

theorem addMetadata_keeps_filenames (m : Metadatas) (name original : String)
    (tags : List String) (ttl key : String) (now : Time) (hname : name ≠ "")
    (hinv : ∀ k e, m.Data k = some e → e.Filename ≠ "") :
    ∀ k e, (addMetadata m name original tags ttl key now).Data k = some e → e.Filename ≠ "" := by
  intro k e hk
  rw [addMetadata_Data] at hk
  split at hk
  · simp only [Option.some.injEq] at hk
    rw [← hk]
    exact hname
  · exact hinv k e hk

/-! ## Lemmas on `Split` and `Join` -/

theorem splitChars_ne_nil (sep : Char) (l : List Char) : splitChars sep l ≠ [] := by
  cases l with
  | nil => simp [splitChars]
  | cons c cs =>
    simp only [splitChars]
    split
    · simp
    · split <;> simp

theorem splitChars_length (sep : Char) (l : List Char) :
    (splitChars sep l).length = l.count sep + 1 := by
  induction l with
  | nil => simp [splitChars]
  | cons c cs ih =>
    simp only [splitChars]
    split
    · next h =>
      subst h
      simp [ih]
    · next h =>
      have hcount : (c :: cs).count sep = cs.count sep := by
        rw [List.count_cons]
        simp [h]
      rw [hcount, ← ih]
      split
      · next hnil => exact absurd hnil (splitChars_ne_nil sep cs)
      · next piece pieces hp => simp [hp]

theorem splitChars_no_sep (sep : Char) (l : List Char) :
    ∀ piece ∈ splitChars sep l, sep ∉ piece := by
  induction l with
  | nil => simp [splitChars]
  | cons c cs ih =>
    intro piece hpiece
    simp only [splitChars] at hpiece
    split at hpiece
    · rcases List.mem_cons.mp hpiece with h | h
      · simp [h]
      · exact ih piece h
    · next hc =>
      split at hpiece
      · next hnil => exact absurd hnil (splitChars_ne_nil sep cs)
      · next p ps hp =>
        rw [hp] at ih
        rcases List.mem_cons.mp hpiece with h | h
        · rw [h]
          intro hmem
          rcases List.mem_cons.mp hmem with h1 | h1
          · exact hc h1.symm
          · exact ih p (List.mem_cons_self _ _) h1
        · exact ih piece (List.mem_cons_of_mem _ h)

theorem Join_splitChars (sep : Char) (l : List Char) :
    Join ((splitChars sep l).map String.mk) (String.singleton sep) = String.mk l := by
  induction l with
  | nil => simp [splitChars, Join]
  | cons c cs ih =>
    simp only [splitChars]
    split
    · next h =>
      subst h
      cases hs : splitChars c cs with
      | nil => exact absurd hs (splitChars_ne_nil c cs)
      | cons p ps =>
        rw [hs] at ih
        simp only [List.map_cons, Join] at ih ⊢
        rw [ih]
        apply String.ext
        simp [String.singleton]
    · next h =>
      split
      · next hnil => exact absurd hnil (splitChars_ne_nil sep cs)
      · next p ps hp =>
        rw [hp] at ih
        cases ps with
        | nil =>
          simp only [List.map_cons, List.map_nil, Join] at ih ⊢
          have hdata : p = cs := congrArg String.data ih
          rw [hdata]
        | cons q qs =>
          simp only [List.map_cons, Join] at ih ⊢
          have hdata := congrArg String.data ih
          simp only [String.data_append] at hdata
          apply String.ext
          simp only [String.data_append, List.cons_append, List.append_assoc]
          rw [← hdata]
          simp

theorem Split_spec (s : String) :
    (∀ t ∈ Split s ',', ',' ∉ t.data) ∧ Join (Split s ',') "," = s ∧
      (Split s ',').length = s.data.count ',' + 1 := by
  refine ⟨?_, ?_, ?_⟩
  · intro t ht
    simp only [Split, List.mem_map] at ht
    obtain ⟨piece, hpiece, rfl⟩ := ht
    exact splitChars_no_sep ',' s.data piece hpiece
  · exact Join_splitChars ',' s.data
  · simp [Split, splitChars_length]

/-! ## Lemmas on `ServeHTTP` -/

/-- Every way in which `ServeHTTP` returns without the status 200: the cause, and
the state, which is the former one up to the random source. -/
theorem ServeHTTP_rejected (fuel : Nat) (env : Env) (s : Server) (r : Request)
    (resp : Response) (s' : Server) (h : ServeHTTP fuel env s r = some (resp, s'))
    (hrej : resp.Status ≠ 200) :
    resp.Body = none ∧ s'.Metadata = s.Metadata ∧ s'.calls = s.calls ∧ s'.Config = s.Config ∧
    ((resp.Status = 403 ∧ secretDenied s.Config.SecretKey r.Key = true) ∨
     (resp.Status = 500 ∧ (r.FormFile = none ∨ r.FormFile = some none)) ∨
     (resp.Status = 400 ∧ r.Form "name" = []) ∨
     (resp.Status = 400 ∧ ∃ ttl rest, r.Form "ttl" = ttl :: rest ∧ env.ParseDuration ttl = false)) := by
  unfold ServeHTTP at h
  simp only at h
  split at h
  · next hden =>
    simp only [Option.some.injEq, Prod.mk.injEq] at h
    obtain ⟨h1, h2⟩ := h
    subst h1 h2
    simp [hden]
  · split at h
    · next hff =>
      simp only [Option.some.injEq, Prod.mk.injEq] at h
      obtain ⟨h1, h2⟩ := h
      subst h1 h2
      simp [hff]
    · next hff =>
      simp only [Option.some.injEq, Prod.mk.injEq] at h
      obtain ⟨h1, h2⟩ := h
      subst h1 h2
      simp [hff]
    · next data hff =>
      split at h
      · next hname =>
        simp only [Option.some.injEq, Prod.mk.injEq] at h
        obtain ⟨h1, h2⟩ := h
        subst h1 h2
        simp [hname]
      · next name0 rest hname =>
        split at h
        · simp at h
        · next name rand1 hloop =>
          split at h
          · next httl =>
            simp only [Option.some.injEq, Prod.mk.injEq] at h
            obtain ⟨h1, h2⟩ := h
            subst h1 h2
            refine ⟨rfl, rfl, rfl, rfl, Or.inr (Or.inr (Or.inr ⟨rfl, ?_⟩))⟩
            split at httl
            · simp at httl
            · next ttl rest' hform =>
              refine ⟨ttl, rest', hform, ?_⟩
              split at httl
              · simp at httl
              · next hp => simpa using hp
          · next ttl exp httl =>
            simp only [Option.some.injEq, Prod.mk.injEq] at h
            obtain ⟨h1, h2⟩ := h
            subst h1
            exact absurd rfl hrej

/-- The one way in which `ServeHTTP` returns the status 200: what was read from
the request, the name drawn by the loop, and the response and state built from them. -/
theorem ServeHTTP_accepted (fuel : Nat) (env : Env) (s : Server) (r : Request)
    (resp : Response) (s' : Server) (h : ServeHTTP fuel env s r = some (resp, s'))
    (hok : resp.Status = 200) :
    ∃ (data : Bytes) (name0 : String) (rest : List String) (name : String) (rand1 : Rand)
      (ttl : String) (exp : Time),
      secretDenied s.Config.SecretKey r.Key = false ∧
      r.FormFile = some (some data) ∧
      r.Form "name" = name0 :: rest ∧
      allocLoop fuel s.Metadata.Data s.rand = some (name, rand1) ∧
      ((r.Form "ttl" = [] ∧ ttl = "" ∧ exp = 0) ∨
        (∃ rest', r.Form "ttl" = ttl :: rest' ∧ env.ParseDuration ttl = true ∧
          exp = env.computeEndOfLife ttl env.Now)) ∧
      resp = { Status := 200,
               Body := some { Name := name, DeleteKey := (randomString 16 rand1).1,
                              DeletionTime := exp } } ∧
      s'.Metadata = addMetadata s.Metadata name (env.Base name0)
        (match r.Form "tags" with
          | [] => []
          | tags0 :: _ => Split tags0 ',')
        ttl (randomString 16 rand1).1 env.Now ∧
      s'.calls = s.calls ++ [Call.WriteFile name data (env.WriteFile name data)]
        ++ [Call.writeMetadata] ∧
      s'.Config = s.Config := by
  unfold ServeHTTP at h
  simp only at h
  split at h
  · simp only [Option.some.injEq, Prod.mk.injEq] at h
    rw [← h.1] at hok
    simp at hok
  · next hden =>
    split at h
    · simp only [Option.some.injEq, Prod.mk.injEq] at h
      rw [← h.1] at hok
      simp at hok
    · simp only [Option.some.injEq, Prod.mk.injEq] at h
      rw [← h.1] at hok
      simp at hok
    · next data hff =>
      split at h
      · simp only [Option.some.injEq, Prod.mk.injEq] at h
        rw [← h.1] at hok
        simp at hok
      · next name0 rest hname =>
        split at h
        · simp at h
        · next name rand1 hloop =>
          split at h
          · simp only [Option.some.injEq, Prod.mk.injEq] at h
            rw [← h.1] at hok
            simp at hok
          · next ttl exp httl =>
            simp only [Option.some.injEq, Prod.mk.injEq] at h
            obtain ⟨h1, h2⟩ := h
            subst h1 h2
            refine ⟨data, name0, rest, name, rand1, ttl, exp, by simpa using hden, hff, hname,
              hloop, ?_, rfl, rfl, rfl, rfl⟩
            split at httl
            · next hform =>
              simp only [Option.some.injEq, Prod.mk.injEq] at httl
              exact Or.inl ⟨hform, httl.1.symm, httl.2.symm⟩
            · next ttl0 rest' hform =>
              split at httl
              · next hp =>
                simp only [Option.some.injEq, Prod.mk.injEq] at httl
                obtain ⟨e1, e2⟩ := httl
                subst e1 e2
                exact Or.inr ⟨rest', hform, hp, rfl⟩
              · simp at httl

/-- A request that passes every check is accepted: with the secret allowed, the
payload read, the `name` field present, the `ttl` field absent or accepted by
`time.ParseDuration`, and an allocation loop that ends, `ServeHTTP` returns the
status 200, whatever `WriteFile` does. -/
theorem ServeHTTP_accepts (fuel : Nat) (env : Env) (s : Server) (r : Request)
    (data : Bytes) (name0 : String) (rest : List String) (name : String) (rand1 : Rand)
    (hsecret : secretDenied s.Config.SecretKey r.Key = false)
    (hfile : r.FormFile = some (some data))
    (hname : r.Form "name" = name0 :: rest)
    (httl : ∀ ttl rest', r.Form "ttl" = ttl :: rest' → env.ParseDuration ttl = true)
    (hloop : allocLoop fuel s.Metadata.Data s.rand = some (name, rand1)) :
    ∃ resp s', ServeHTTP fuel env s r = some (resp, s') ∧ resp.Status = 200 := by
  unfold ServeHTTP
  simp only [hsecret, hfile, hname, hloop]
  cases hform : r.Form "ttl" with
  | nil => simp
  | cons ttl rest' => simp [httl ttl rest' hform]

/-- The run of the scenario: `request "S" fullForm` on `server0`. -/
theorem ServeHTTP_scenario :
    ServeHTTP 1 failingEnv server0 (request "S" fullForm) = some (response1, server1) := by
  rfl

/-- An entry with an empty `Filename` is never created: if all entries of the
store have a non-empty `Filename` before `ServeHTTP`, so have all entries after. -/
theorem ServeHTTP_keeps_filenames (fuel : Nat) (env : Env) (s : Server) (r : Request)
    (resp : Response) (s' : Server) (h : ServeHTTP fuel env s r = some (resp, s'))
    (hinv : ∀ k e, s.Metadata.Data k = some e → e.Filename ≠ "") :
    ∀ k e, s'.Metadata.Data k = some e → e.Filename ≠ "" := by
  by_cases hok : resp.Status = 200
  · obtain ⟨data, name0, rest, name, rand1, ttl, exp, _, _, _, hloop, _, _, hmeta, _⟩ :=
      ServeHTTP_accepted fuel env s r resp s' h hok
    have hlen := (allocLoop_sound fuel s.Metadata.Data s.rand name rand1 hloop).2.1
    have hne : name ≠ "" := by
      intro hempty
      rw [hempty] at hlen
      exact absurd hlen (by decide)
    rw [hmeta]
    exact addMetadata_keeps_filenames s.Metadata name _ _ _ _ _ hne hinv
  · obtain ⟨_, hmeta, _⟩ := ServeHTTP_rejected fuel env s r resp s' h hok
    rw [hmeta]
    exact hinv

theorem serveAll_keeps_filenames (steps : List (Nat × Env × Request)) (s0 s : Server)
    (h : serveAll s0 steps = some s)
    (hinv : ∀ k e, s0.Metadata.Data k = some e → e.Filename ≠ "") :
    ∀ k e, s.Metadata.Data k = some e → e.Filename ≠ "" := by
  induction steps generalizing s0 with
  | nil =>
    simp only [serveAll, Option.some.injEq] at h
    rw [← h]
    exact hinv
  | cons step steps ih =>
    obtain ⟨fuel, env, r⟩ := step
    simp only [serveAll] at h
    split at h
    · simp at h
    · next resp s1 hstep =>
      exact ih s1 h (ServeHTTP_keeps_filenames fuel env s0 r resp s1 hstep hinv)

theorem allocLoop_not_key (fuel : Nat) (data : String → Option Metadata) (rand : Rand)
    (name : String) (rand1 : Rand)
    (hinv : ∀ k e, data k = some e → e.Filename ≠ "")
    (h : allocLoop fuel data rand = some (name, rand1)) : data name = none := by
  have hfree := (allocLoop_sound fuel data rand name rand1 h).1
  cases hd : data name with
  | none => rfl
  | some e =>
    exfalso
    apply hinv name e hd
    simpa [Metadatas.index, hd] using hfree

/-- The run of the scenario on the empty store. -/
theorem serveAll_scenario :
    serveAll freshServer [(1, failingEnv, request "S" fullForm)] = some freshServer1 := by
  rfl

/-! ## The recent-uploads list and the metadata map -/

/-- C1, as the code behaves: a run of uploads recorded from an empty
`LastUploaded` list leaves the 19 most recent codes, newest first, and not the
20 most recent ones. After the codes `c 1`, ..., `c 25` the list is
`[c 25, ..., c 7]`, of length 19; already after 20 codes the oldest is lost. -/
theorem C1_lastUploaded_keeps_19 :
    (∀ (data : String → Option Metadata) (es : List Metadata),
      (addAll { Data := data, LastUploaded := [] } es).LastUploaded
        = ((es.map Metadata.Filename).reverse).take 19) ∧
    (∀ c : Nat → String,
      (addAll emptyStore ((List.range' 1 25).map fun i => upload (c i))).LastUploaded
        = [c 25, c 24, c 23, c 22, c 21, c 20, c 19, c 18, c 17, c 16, c 15, c 14, c 13,
           c 12, c 11, c 10, c 9, c 8, c 7]) ∧
    (∀ c : Nat → String,
      (addAll emptyStore ((List.range' 1 20).map fun i => upload (c i))).LastUploaded.length
        = 19) := by
  refine ⟨?_, ?_, ?_⟩
  · intro data es
    rw [addAll_LastUploaded]
    by_cases hes : es = []
    · simp [hes]
    · simp [hes]
  · intro c
    rw [addAll_LastUploaded]
    simp [List.range', upload, emptyStore]
  · intro c
    rw [addAll_LastUploaded]
    simp [List.range', emptyStore]

/-- C8: after `addMetadata` the `LastUploaded` list has at most 20 elements, is
not empty, starts with the new code, and is a prefix of the new code followed by
the former list (the older codes keep their order, only the oldest are dropped). -/
theorem C8_lastUploaded_bounded_prefix (m : Metadatas) (name original : String)
    (tags : List String) (ttl key : String) (now : Time) :
    (addMetadata m name original tags ttl key now).LastUploaded.length ≤ 20 ∧
    (addMetadata m name original tags ttl key now).LastUploaded ≠ [] ∧
    (addMetadata m name original tags ttl key now).LastUploaded.head? = some name ∧
    (addMetadata m name original tags ttl key now).LastUploaded <+: name :: m.LastUploaded := by
  rw [addMetadata_LastUploaded]
  refine ⟨?_, ?_, ?_, ?_⟩
  · rw [List.length_take]
    omega
  · simp
  · simp
  · exact List.take_prefix _ _

/-- C9, as stated, fails: in `takenStore` the code `abcdefgh` is a key, and
`addMetadata` under that code changes both the entry stored under it and the
`LastUploaded` list. -/
theorem C9_counterexample :
    (takenStore.Data "abcdefgh").isSome = true ∧
    (addMetadata takenStore "abcdefgh" "new.txt" ["t"] "1h" "key2" 7).Data "abcdefgh"
      ≠ takenStore.Data "abcdefgh" ∧
    (addMetadata takenStore "abcdefgh" "new.txt" ["t"] "1h" "key2" 7).LastUploaded
      ≠ takenStore.LastUploaded := by
  refine ⟨by decide, by decide, by decide⟩

/-- C9, amended: `addMetadata` makes no occupancy check. When `name` is already a
key, the former entry is replaced by the new one, and `name` is put at the head of
`LastUploaded`, in front of a prefix of the former list. -/
theorem C9_addMetadata_overwrites (m : Metadatas) (name original : String)
    (tags : List String) (ttl key : String) (now : Time) (old : Metadata)
    (hold : m.Data name = some old) :
    (addMetadata m name original tags ttl key now).Data name
      = some { Filename := name, Original := original, Tags := tags, TTL := ttl,
               DeleteKey := key, CreationTime := now } ∧
    (old ≠ { Filename := name, Original := original, Tags := tags, TTL := ttl,
             DeleteKey := key, CreationTime := now } →
      (addMetadata m name original tags ttl key now).Data name ≠ m.Data name) ∧
    (addMetadata m name original tags ttl key now).LastUploaded.head? = some name ∧
    (addMetadata m name original tags ttl key now).LastUploaded.tail <+: m.LastUploaded := by
  rw [addMetadata_LastUploaded, addMetadata_Data]
  refine ⟨by simp, ?_, by simp, ?_⟩
  · intro hne heq
    rw [hold, if_pos rfl] at heq
    exact hne (Option.some.inj heq).symm
  · simp only [List.take_succ_cons, List.tail_cons]
    exact List.take_prefix _ _

/-- The amended C9 at `takenStore`: the entry of `abcdefgh` is replaced. -/
theorem C9_addMetadata_overwrites_witness :
    takenStore.Data "abcdefgh" = some (upload "abcdefgh") ∧
    (addMetadata takenStore "abcdefgh" "new.txt" ["t"] "1h" "key2" 7).Data "abcdefgh"
      = some { Filename := "abcdefgh", Original := "new.txt", Tags := ["t"], TTL := "1h",
               DeleteKey := "key2", CreationTime := 7 } ∧
    (addMetadata takenStore "abcdefgh" "new.txt" ["t"] "1h" "key2" 7).Data "abcdefgh"
      ≠ takenStore.Data "abcdefgh" ∧
    (addMetadata takenStore "abcdefgh" "new.txt" ["t"] "1h" "key2" 7).LastUploaded.head?
      = some "abcdefgh" ∧
    (addMetadata takenStore "abcdefgh" "new.txt" ["t"] "1h" "key2" 7).LastUploaded.tail
      <+: takenStore.LastUploaded :=
  have h := C9_addMetadata_overwrites takenStore "abcdefgh" "new.txt" ["t"] "1h" "key2" 7
    (upload "abcdefgh") (by decide)
  ⟨by decide, h.1, h.2.1 (by decide), h.2.2⟩

/-- C10: after `addMetadata` the entry found under `name` has exactly the given
fields, and the entry found under every other code is the one that was there
before the call. -/
theorem C10_addMetadata_entry_and_frame (m : Metadatas) (name original : String)
    (tags : List String) (ttl key : String) (now : Time) :
    (addMetadata m name original tags ttl key now).Data name
      = some { Filename := name, Original := original, Tags := tags, TTL := ttl,
               DeleteKey := key, CreationTime := now } ∧
    (∀ k : String, k ≠ name →
      (addMetadata m name original tags ttl key now).Data k = m.Data k) := by
  refine ⟨by simp [addMetadata_Data], ?_⟩
  intro k hk
  simp [addMetadata_Data, hk]

/-- C10 at `takenStore`: a new code is stored, the entry of `abcdefgh` stays. -/
theorem C10_addMetadata_entry_and_frame_witness :
    (addMetadata takenStore "ZZZZ0000" "new.txt" ["t"] "1h" "key2" 7).Data "ZZZZ0000"
      = some { Filename := "ZZZZ0000", Original := "new.txt", Tags := ["t"], TTL := "1h",
               DeleteKey := "key2", CreationTime := 7 } ∧
    (addMetadata takenStore "ZZZZ0000" "new.txt" ["t"] "1h" "key2" 7).Data "abcdefgh"
      = some (upload "abcdefgh") :=
  ⟨(C10_addMetadata_entry_and_frame takenStore "ZZZZ0000" "new.txt" ["t"] "1h" "key2" 7).1,
   (C10_addMetadata_entry_and_frame takenStore "ZZZZ0000" "new.txt" ["t"] "1h" "key2" 7).2
     "abcdefgh" (by decide)⟩

/-! ## Code allocation -/

/-- C2: the name with which the allocation loop ends is not a key of the store.
The loop ends only on a name under which no entry with a non-empty `Filename` is
found. `ServeHTTP` never stores an entry with an empty `Filename`: from a store
whose entries all have one that is not empty, every run of requests leads to such
a store again. So on every store whose entries have a non-empty `Filename`, and in
particular on every store built by runs of `ServeHTTP` from an empty map, for
every random source and every fuel with which the loop ends, the resulting name
is not a key of `Data`; the name returned by an accepted upload was not a key of
the store the request was served on. -/
theorem C2_allocLoop_name_free :
    (∀ (fuel : Nat) (data : String → Option Metadata) (rand : Rand) (name : String)
        (rand1 : Rand),
      allocLoop fuel data rand = some (name, rand1) →
      (Metadatas.index data name).Filename = "") ∧
    (∀ (fuel : Nat) (data : String → Option Metadata) (rand : Rand) (name : String)
        (rand1 : Rand),
      (∀ k e, data k = some e → e.Filename ≠ "") →
      allocLoop fuel data rand = some (name, rand1) → data name = none) ∧
    (∀ (s0 : Server) (steps : List (Nat × Env × Request)) (s : Server),
      (∀ k e, s0.Metadata.Data k = some e → e.Filename ≠ "") →
      serveAll s0 steps = some s →
      ∀ k e, s.Metadata.Data k = some e → e.Filename ≠ "") ∧
    (∀ (s0 : Server) (steps : List (Nat × Env × Request)) (s : Server) (fuel : Nat)
        (rand : Rand) (name : String) (rand1 : Rand),
      (∀ k, s0.Metadata.Data k = none) →
      serveAll s0 steps = some s →
      allocLoop fuel s.Metadata.Data rand = some (name, rand1) →
      s.Metadata.Data name = none) ∧
    (∀ (s0 : Server) (steps : List (Nat × Env × Request)) (s : Server) (fuel : Nat)
        (env : Env) (r : Request) (resp : Response) (s' : Server),
      (∀ k, s0.Metadata.Data k = none) →
      serveAll s0 steps = some s →
      ServeHTTP fuel env s r = some (resp, s') → resp.Status = 200 →
      ∃ body, resp.Body = some body ∧ s.Metadata.Data body.Name = none) := by
  have hempty : ∀ s0 : Server, (∀ k, s0.Metadata.Data k = none) →
      ∀ k e, s0.Metadata.Data k = some e → e.Filename ≠ "" := by
    intro s0 h0 k e hk
    rw [h0 k] at hk
    exact absurd hk (by simp)
  refine ⟨?_, allocLoop_not_key, ?_, ?_, ?_⟩
  · intro fuel data rand name rand1 h
    exact (allocLoop_sound fuel data rand name rand1 h).1
  · intro s0 steps s hinv hrun
    exact serveAll_keeps_filenames steps s0 s hrun hinv
  · intro s0 steps s fuel rand name rand1 h0 hrun hloop
    exact allocLoop_not_key fuel s.Metadata.Data rand name rand1
      (serveAll_keeps_filenames steps s0 s hrun (hempty s0 h0)) hloop
  · intro s0 steps s fuel env r resp s' h0 hrun h hok
    obtain ⟨data, name0, rest, name, rand1, ttl, exp, _, _, _, hloop, _, hresp, _⟩ :=
      ServeHTTP_accepted fuel env s r resp s' h hok
    refine ⟨{ Name := name, DeleteKey := (randomString 16 rand1).1, DeletionTime := exp },
      by rw [hresp], ?_⟩
    exact allocLoop_not_key fuel s.Metadata.Data s.rand name rand1
      (serveAll_keeps_filenames steps s0 s hrun (hempty s0 h0)) hloop

/-- C2 on two stores. In `busyStore`, and in the store that the upload of
`request "S" fullForm` builds from the empty one, the code `aaaaaaaa` is taken:
the loop draws `aaaaaaaa`, draws again and ends with `bbbbbbbb`, which is not a key. -/
theorem C2_allocLoop_name_free_witness :
    allocLoop 2 busyStore drawsAB = some ("bbbbbbbb", fun i => drawsAB (i + 16)) ∧
    busyStore "bbbbbbbb" = none ∧
    serveAll freshServer [(1, failingEnv, request "S" fullForm)] = some freshServer1 ∧
    freshServer1.Metadata.Data "aaaaaaaa" ≠ none ∧
    allocLoop 2 freshServer1.Metadata.Data drawsAB
      = some ("bbbbbbbb", fun i => drawsAB (i + 16)) ∧
    freshServer1.Metadata.Data "bbbbbbbb" = none :=
  have hinv : ∀ k e, busyStore k = some e → e.Filename ≠ "" := by
    intro k e hk
    unfold busyStore at hk
    split at hk
    · simp only [Option.some.injEq] at hk
      rw [← hk]
      decide
    · simp at hk
  have hrun : allocLoop 2 busyStore drawsAB
      = some ("bbbbbbbb", fun i => drawsAB (i + 16)) := by
    rfl
  have hrun1 : allocLoop 2 freshServer1.Metadata.Data drawsAB
      = some ("bbbbbbbb", fun i => drawsAB (i + 16)) := by
    rfl
  ⟨hrun,
   C2_allocLoop_name_free.2.1 2 busyStore drawsAB "bbbbbbbb" _ hinv hrun,
   serveAll_scenario,
   by decide,
   hrun1,
   C2_allocLoop_name_free.2.2.2.1 freshServer [(1, failingEnv, request "S" fullForm)]
     freshServer1 2 drawsAB "bbbbbbbb" _ (fun _ => rfl) serveAll_scenario hrun1⟩

/-! ## The admission pipeline -/

/-- C3: every rejection of `ServeHTTP` leaves the metadata store and the log of
collaborator calls as they were. A refused secret gives 403, a payload that
cannot be read gives 500, a missing `name` field gives 400, each from any state
and with the state returned untouched; a `ttl` that `time.ParseDuration` refuses
gives 400 once the allocation loop has ended, with only the random source
advanced. Conversely, whenever `ServeHTTP` returns a status other than 200, the
`Data` map and the `LastUploaded` list are the former ones and no `WriteFile`
call has been made. -/
theorem C3_rejection_leaves_store (fuel : Nat) (env : Env) (s : Server) (r : Request) :
    (secretDenied s.Config.SecretKey r.Key = true →
      ServeHTTP fuel env s r = some ({ Status := 403, Body := none }, s)) ∧
    (secretDenied s.Config.SecretKey r.Key = false →
      (r.FormFile = none ∨ r.FormFile = some none) →
      ServeHTTP fuel env s r = some ({ Status := 500, Body := none }, s)) ∧
    (∀ data, secretDenied s.Config.SecretKey r.Key = false →
      r.FormFile = some (some data) → r.Form "name" = [] →
      ServeHTTP fuel env s r = some ({ Status := 400, Body := none }, s)) ∧
    (∀ data name0 rest ttl rest' name rand1,
      secretDenied s.Config.SecretKey r.Key = false →
      r.FormFile = some (some data) → r.Form "name" = name0 :: rest →
      r.Form "ttl" = ttl :: rest' → env.ParseDuration ttl = false →
      allocLoop fuel s.Metadata.Data s.rand = some (name, rand1) →
      ServeHTTP fuel env s r = some ({ Status := 400, Body := none }, { s with rand := rand1 })) ∧
    (∀ resp s', ServeHTTP fuel env s r = some (resp, s') → resp.Status ≠ 200 →
      s'.Metadata.Data = s.Metadata.Data ∧ s'.Metadata.LastUploaded = s.Metadata.LastUploaded ∧
      s'.calls = s.calls) := by
  refine ⟨?_, ?_, ?_, ?_, ?_⟩
  · intro hden
    simp [ServeHTTP, hden]
  · intro hden hff
    rcases hff with hff | hff <;> simp [ServeHTTP, hden, hff]
  · intro data hden hff hname
    simp [ServeHTTP, hden, hff, hname]
  · intro data name0 rest ttl rest' name rand1 hden hff hname hform hp hloop
    simp [ServeHTTP, hden, hff, hname, hform, hp, hloop]
  · intro resp s' h hrej
    obtain ⟨_, hm, hc, _⟩ := ServeHTTP_rejected fuel env s r resp s' h hrej
    exact ⟨by rw [hm], by rw [hm], hc⟩

/-- C3 on `server0`: the key `T`, an unreadable payload, a form without a name
and the `ttl` `notaduration` are refused with 403, 500, 400 and 400, and the
state that comes back has the store and the call log of `server0`. -/
theorem C3_rejection_leaves_store_witness :
    ServeHTTP 1 failingEnv server0 (request "T" fullForm)
      = some ({ Status := 403, Body := none }, server0) ∧
    ServeHTTP 1 failingEnv server0 { Key := "S", FormFile := some none, Form := fullForm }
      = some ({ Status := 500, Body := none }, server0) ∧
    ServeHTTP 1 failingEnv server0 (request "S" fun _ => [])
      = some ({ Status := 400, Body := none }, server0) ∧
    ServeHTTP 1 failingEnv server0 (request "S" badTtlForm)
      = some ({ Status := 400, Body := none }, { server0 with rand := fun _ => 0 }) ∧
    ({ server0 with rand := fun _ => 0 } : Server).Metadata.Data = server0.Metadata.Data ∧
    ({ server0 with rand := fun _ => 0 } : Server).calls = [] :=
  have h4 := (C3_rejection_leaves_store 1 failingEnv server0 (request "S" badTtlForm)).2.2.2.1
    [1, 2, 3] "a.txt" [] "notaduration" [] "aaaaaaaa" (fun _ => 0) (by decide) rfl rfl rfl
    (by decide) rfl
  have h5 := (C3_rejection_leaves_store 1 failingEnv server0 (request "S" badTtlForm)).2.2.2.2
    _ _ h4 (by decide)
  ⟨(C3_rejection_leaves_store 1 failingEnv server0 (request "T" fullForm)).1 (by decide),
   (C3_rejection_leaves_store 1 failingEnv server0
      { Key := "S", FormFile := some none, Form := fullForm }).2.1 (by decide) (Or.inr rfl),
   (C3_rejection_leaves_store 1 failingEnv server0 (request "S" fun _ => [])).2.2.1
      [1, 2, 3] (by decide) rfl rfl,
   h4, h5.1, h5.2.2⟩

/-- C4, as stated, fails: with `failingEnv` every `WriteFile` fails, and still the
upload of `request "S" fullForm` on `server0` is answered with the status 200, the
entry is stored under the returned name and the name is put in `LastUploaded`. -/
theorem C4_counterexample :
    failingEnv.WriteFile "aaaaaaaa" [1, 2, 3] = false ∧
    ServeHTTP 1 failingEnv server0 (request "S" fullForm) = some (response1, server1) ∧
    response1.Status = 200 ∧
    server1.calls = [Call.WriteFile "aaaaaaaa" [1, 2, 3] false, Call.writeMetadata] ∧
    server1.Metadata.Data "aaaaaaaa"
      = some { Filename := "aaaaaaaa", Original := "a.txt", Tags := ["a", "b", "", "c"],
               TTL := "1h", DeleteKey := "aaaaaaaaaaaaaaaa", CreationTime := 1000 } ∧
    server0.Metadata.Data "aaaaaaaa" = none ∧
    server1.Metadata.LastUploaded = ["aaaaaaaa", "abcdefgh"] ∧
    server0.Metadata.LastUploaded = ["abcdefgh"] := by
  refine ⟨rfl, ServeHTTP_scenario, rfl, rfl, by decide, by decide, by decide, by decide⟩

/-- C4, amended: `ServeHTTP` never reads the outcome of `WriteFile`. For a request
that passes every check (secret allowed, payload read, `name` present, `ttl`
absent or accepted by `time.ParseDuration`, allocation loop ended with `name`),
the whole result is fixed by the request, the store and the random source: the
status 200 with the drawn name, the delete key drawn next and the expiration
time; the store extended by `addMetadata` with the entry of the request (the
base of the `name` field, the split tags, the `ttl`, the delete key, the current
time); and a call log extended by exactly one `WriteFile` call, on the drawn name
and the payload, and one `writeMetadata` call. Putting any other outcome `w` in
the place of `WriteFile`, a failing one included, gives the same response and the
same store, and only changes the outcome noted for the call. -/
theorem C4_write_outcome_ignored (fuel : Nat) (env : Env) (s : Server) (r : Request)
    (data : Bytes) (name0 : String) (rest : List String) (name : String) (rand1 : Rand)
    (hsecret : secretDenied s.Config.SecretKey r.Key = false)
    (hfile : r.FormFile = some (some data))
    (hname : r.Form "name" = name0 :: rest)
    (httl : ∀ ttl rest', r.Form "ttl" = ttl :: rest' → env.ParseDuration ttl = true)
    (hloop : allocLoop fuel s.Metadata.Data s.rand = some (name, rand1)) :
    ∀ w : String → Bytes → Bool,
      ServeHTTP fuel
          { ParseDuration := env.ParseDuration, Base := env.Base,
            computeEndOfLife := env.computeEndOfLife, WriteFile := w, Now := env.Now } s r
        = some
          ({ Status := 200,
             Body := some
               { Name := name,
                 DeleteKey := (randomString 16 rand1).1,
                 DeletionTime :=
                   if r.Form "ttl" = [] then 0
                   else env.computeEndOfLife ((r.Form "ttl").headD "") env.Now } },
           { Config := s.Config,
             Metadata := addMetadata s.Metadata name (env.Base name0)
               (if r.Form "tags" = [] then [] else Split ((r.Form "tags").headD "") ',')
               ((r.Form "ttl").headD "") (randomString 16 rand1).1 env.Now,
             rand := (randomString 16 rand1).2,
             calls := s.calls ++ [Call.WriteFile name data (w name data)]
               ++ [Call.writeMetadata] }) := by
  intro w
  unfold ServeHTTP
  simp only [hsecret, hfile, hname, hloop]
  cases hform : r.Form "ttl" with
  | nil =>
    cases htags : r.Form "tags" with
    | nil => simp
    | cons tags0 others => simp
  | cons ttl rest' =>
    have hp := httl ttl rest' hform
    cases htags : r.Form "tags" with
    | nil => simp [hp]
    | cons tags0 others => simp [hp]

/-- The amended C4 on `server0`, where every write fails: the upload is accepted
with the response `response1` and leads to the state `server1`, whose log holds
the one failed `WriteFile` call; with writes that succeed the response and the
store are the same. -/
theorem C4_write_outcome_ignored_witness :
    failingEnv.WriteFile "aaaaaaaa" [1, 2, 3] = false ∧
    ServeHTTP 1 failingEnv server0 (request "S" fullForm) = some (response1, server1) ∧
    ServeHTTP 1
        { ParseDuration := failingEnv.ParseDuration, Base := failingEnv.Base,
          computeEndOfLife := failingEnv.computeEndOfLife, WriteFile := fun _ _ => true,
          Now := failingEnv.Now } server0 (request "S" fullForm)
      = some (response1,
          { Config := server1.Config, Metadata := server1.Metadata, rand := server1.rand,
            calls := [Call.WriteFile "aaaaaaaa" [1, 2, 3] true, Call.writeMetadata] }) :=
  have httl : ∀ ttl rest', (request "S" fullForm).Form "ttl" = ttl :: rest' →
      failingEnv.ParseDuration ttl = true := by
    intro ttl rest' hform
    have h1 : (request "S" fullForm).Form "ttl" = ["1h"] := by decide
    rw [h1] at hform
    rw [← (List.cons.inj hform).1]
    decide
  ⟨rfl,
   C4_write_outcome_ignored 1 failingEnv server0 (request "S" fullForm) [1, 2, 3] "a.txt" []
     "aaaaaaaa" (fun _ => 0) (by decide) rfl rfl httl rfl (fun _ _ => false),
   C4_write_outcome_ignored 1 failingEnv server0 (request "S" fullForm) [1, 2, 3] "a.txt" []
     "aaaaaaaa" (fun _ => 0) (by decide) rfl rfl httl rfl (fun _ _ => true)⟩

/-- C5: the secret check lets a request through exactly when the configured
`SecretKey` is empty or equal to the key of the request. A request that is not
let through is answered with 403 from the untouched state; one that is let
through is never answered with 403. With the secret `S` the key `S` passes and
the keys `T`, `s` and the empty key do not; with an empty secret every key passes. -/
theorem C5_secret_check (fuel : Nat) (env : Env) (s : Server) (r : Request) :
    (secretDenied s.Config.SecretKey r.Key = false ↔
      (s.Config.SecretKey = "" ∨ r.Key = s.Config.SecretKey)) ∧
    (¬ (s.Config.SecretKey = "" ∨ r.Key = s.Config.SecretKey) →
      ServeHTTP fuel env s r = some ({ Status := 403, Body := none }, s)) ∧
    ((s.Config.SecretKey = "" ∨ r.Key = s.Config.SecretKey) →
      ∀ resp s', ServeHTTP fuel env s r = some (resp, s') → resp.Status ≠ 403) ∧
    (secretDenied "S" "S" = false ∧ secretDenied "S" "" = true ∧
      secretDenied "S" "T" = true ∧ secretDenied "S" "s" = true ∧
      ∀ key, secretDenied "" key = false) := by
  have hiff : secretDenied s.Config.SecretKey r.Key = false ↔
      (s.Config.SecretKey = "" ∨ r.Key = s.Config.SecretKey) := by
    simp only [secretDenied, Bool.and_eq_false_iff, bne_eq_false_iff_eq]
  refine ⟨hiff, ?_, ?_, ?_⟩
  · intro hnot
    have hden : secretDenied s.Config.SecretKey r.Key = true := by
      cases hd : secretDenied s.Config.SecretKey r.Key with
      | true => rfl
      | false => exact absurd (hiff.mp hd) hnot
    simp [ServeHTTP, hden]
  · intro hallow resp s' h h403
    have hrej : resp.Status ≠ 200 := by
      rw [h403]
      decide
    obtain ⟨_, _, _, _, hcause⟩ := ServeHTTP_rejected fuel env s r resp s' h hrej
    rcases hcause with ⟨_, hden⟩ | ⟨h500, _⟩ | ⟨h400, _⟩ | ⟨h400, _⟩
    · rw [hiff.mpr hallow] at hden
      exact Bool.false_ne_true hden
    · rw [h403] at h500
      exact absurd h500 (by decide)
    · rw [h403] at h400
      exact absurd h400 (by decide)
    · rw [h403] at h400
      exact absurd h400 (by decide)
  · refine ⟨by decide, by decide, by decide, by decide, ?_⟩
    intro key
    simp [secretDenied]

/-- C5 on `server0`, whose secret is `S`: the key `T` and the empty key are
answered with 403, the key `S` is not. -/
theorem C5_secret_check_witness :
    ServeHTTP 1 failingEnv server0 (request "T" fullForm)
      = some ({ Status := 403, Body := none }, server0) ∧
    ServeHTTP 1 failingEnv server0 (request "" fullForm)
      = some ({ Status := 403, Body := none }, server0) ∧
    response1.Status ≠ 403 :=
  ⟨(C5_secret_check 1 failingEnv server0 (request "T" fullForm)).2.1 (by decide),
   (C5_secret_check 1 failingEnv server0 (request "" fullForm)).2.1 (by decide),
   (C5_secret_check 1 failingEnv server0 (request "S" fullForm)).2.2.1 (Or.inr rfl)
     response1 server1 ServeHTTP_scenario⟩

/-- C6: for every size and every random source, `randomString` returns a string
of exactly `size` characters, all taken from `DICTIONARY`, whose 62 characters
are distinct letters and digits. Hence every upload answered with the status 200
returns a name of 8 characters and a delete key of 16 characters of `DICTIONARY`. -/
theorem C6_randomString_shape :
    (∀ (size : Nat) (rand : Rand),
      (randomString size rand).1.length = size ∧
      ∀ c ∈ (randomString size rand).1.data, c ∈ DICTIONARY.data) ∧
    (DICTIONARY.length = 62 ∧ DICTIONARY.data.Nodup ∧
      ∀ c ∈ DICTIONARY.data, c.isAlphanum = true) ∧
    (∀ (fuel : Nat) (env : Env) (s : Server) (r : Request) (resp : Response) (s' : Server),
      ServeHTTP fuel env s r = some (resp, s') → resp.Status = 200 →
      ∃ body, resp.Body = some body ∧
        body.Name.length = 8 ∧ (∀ c ∈ body.Name.data, c ∈ DICTIONARY.data) ∧
        body.DeleteKey.length = 16 ∧ (∀ c ∈ body.DeleteKey.data, c ∈ DICTIONARY.data)) := by
  refine ⟨fun size rand => ⟨randomString_length size rand, randomString_mem size rand⟩,
    ⟨by decide, by decide, by decide⟩, ?_⟩
  intro fuel env s r resp s' h hok
  obtain ⟨data, name0, rest, name, rand1, ttl, exp, _, _, _, hloop, _, hresp, _⟩ :=
    ServeHTTP_accepted fuel env s r resp s' h hok
  obtain ⟨_, hlen, hmem⟩ := allocLoop_sound fuel s.Metadata.Data s.rand name rand1 hloop
  refine ⟨{ Name := name, DeleteKey := (randomString 16 rand1).1, DeletionTime := exp }, ?_,
    hlen, hmem, randomString_length 16 rand1, randomString_mem 16 rand1⟩
  rw [hresp]

/-- C6 on the scenario: the name `aaaaaaaa` and the delete key
`aaaaaaaaaaaaaaaa` returned by the upload have 8 and 16 characters of `DICTIONARY`. -/
theorem C6_randomString_shape_witness :
    ServeHTTP 1 failingEnv server0 (request "S" fullForm) = some (response1, server1) ∧
    ∃ body, response1.Body = some body ∧
      body.Name.length = 8 ∧ (∀ c ∈ body.Name.data, c ∈ DICTIONARY.data) ∧
      body.DeleteKey.length = 16 ∧ (∀ c ∈ body.DeleteKey.data, c ∈ DICTIONARY.data) :=
  ⟨ServeHTTP_scenario,
   C6_randomString_shape.2.2 1 failingEnv server0 (request "S" fullForm) response1 server1
     ServeHTTP_scenario rfl⟩

/-- C7: splitting a string on commas gives pieces that contain no comma, that
joined with a comma give the string back, and that are one more than the commas
of the string; `a,b,,c` gives `a`, `b`, the empty string and `c`. For every upload
answered with the status 200, the `Tags` of the entry stored under the returned
name are the first value of the `tags` field split in this way, and the empty list
when the field is absent. -/
theorem C7_tags_split_verbatim :
    (∀ s : String,
      (∀ t ∈ Split s ',', ',' ∉ t.data) ∧ Join (Split s ',') "," = s ∧
      (Split s ',').length = s.data.count ',' + 1) ∧
    Split "a,b,,c" ',' = ["a", "b", "", "c"] ∧
    (∀ (fuel : Nat) (env : Env) (s : Server) (r : Request) (resp : Response) (s' : Server),
      ServeHTTP fuel env s r = some (resp, s') → resp.Status = 200 →
      ∃ body entry, resp.Body = some body ∧ s'.Metadata.Data body.Name = some entry ∧
        ((r.Form "tags" = [] ∧ entry.Tags = []) ∨
         (∃ tags0 others, r.Form "tags" = tags0 :: others ∧ entry.Tags = Split tags0 ','))) := by
  refine ⟨Split_spec, by decide, ?_⟩
  intro fuel env s r resp s' h hok
  obtain ⟨data, name0, rest, name, rand1, ttl, exp, _, _, _, _, _, hresp, hmeta, _⟩ :=
    ServeHTTP_accepted fuel env s r resp s' h hok
  refine ⟨{ Name := name, DeleteKey := (randomString 16 rand1).1, DeletionTime := exp },
    { Filename := name, Original := env.Base name0,
      Tags := (match r.Form "tags" with
        | [] => []
        | tags0 :: _ => Split tags0 ','),
      TTL := ttl, DeleteKey := (randomString 16 rand1).1, CreationTime := env.Now }, ?_, ?_, ?_⟩
  · rw [hresp]
  · rw [hmeta, addMetadata_Data, if_pos rfl]
  · cases hform : r.Form "tags" with
    | nil => exact Or.inl ⟨rfl, rfl⟩
    | cons tags0 others => exact Or.inr ⟨tags0, others, rfl, rfl⟩

/-- C7 on the scenario: the field `a,b,,c` is stored as `a`, `b`, the empty
string and `c`. -/
theorem C7_tags_split_verbatim_witness :
    ServeHTTP 1 failingEnv server0 (request "S" fullForm) = some (response1, server1) ∧
    (∃ body entry, response1.Body = some body ∧ server1.Metadata.Data body.Name = some entry ∧
      (((request "S" fullForm).Form "tags" = [] ∧ entry.Tags = []) ∨
       (∃ tags0 others, (request "S" fullForm).Form "tags" = tags0 :: others ∧
         entry.Tags = Split tags0 ','))) ∧
    (request "S" fullForm).Form "tags" = ["a,b,,c"] ∧
    (server1.Metadata.Data "aaaaaaaa").map Metadata.Tags = some ["a", "b", "", "c"] :=
  ⟨ServeHTTP_scenario,
   C7_tags_split_verbatim.2.2 1 failingEnv server0 (request "S" fullForm) response1 server1
     ServeHTTP_scenario rfl,
   by decide, by decide⟩

end Upd
